import Mathlib

/-!
Shallow embedding of the CasperLabs execution-engine service layer
(`engine-grpc-server/src/engine_server/mod.rs`), the Transform protobuf
mappings (`mappings/transforms/transform.rs`), the PoS validator-key
helpers (`engine/src/engine_state/utils.rs`), and the finalize-payment
integration contract (`contracts/integration/finalize-payment/src/lib.rs`).

Machine integers are modelled as `Nat`/`Int` (with `Fin (2 ^ w)` where a
fixed width matters).  Fallible Rust code returns `Option`/`Except`; Rust
code that can panic (out-of-range string slicing) returns `PanicOr`.
-/

namespace CasperLabs

/-- Outcome of Rust code that may panic: either a value or a panic
(modelling an out-of-range byte-slice index). -/
inductive PanicOr (α : Type) where
  | panicked : PanicOr α
  | ok : α → PanicOr α
deriving DecidableEq, Repr

/-! ## Validator-key helpers (`engine/src/engine_state/utils.rs`) -/

/-- Modelled from the spec: `addr_to_hex` (its body is absent from the
sources; only its call site in `pos_validator_key` is present) renders a
byte as two lowercase hexadecimal digits, `%02x` style. -/
def hexDigit (d : Nat) : Char :=
  if d < 10 then Char.ofNat (48 + d) else Char.ofNat (87 + d)

/-- Two lowercase hex digits of one byte (`%02x`). -/
def byteToHex (b : Nat) : List Char :=
  [hexDigit (b / 16), hexDigit (b % 16)]

/-- Modelled from the spec: `addr_to_hex(&pk.value())` — the 32 address
bytes rendered as 64 lowercase hex characters. -/
def addr_to_hex (addr : List Nat) : List Char :=
  addr.flatMap byteToHex

/-- Decimal digit character. -/
def digitChar (d : Nat) : Char := Char.ofNat (48 + d)

/-- Decimal digits of `n`, least significant first (empty for 0). -/
def decDigitsRev (n : Nat) : List Char :=
  if h : n = 0 then []
  else digitChar (n % 10) :: decDigitsRev (n / 10)
decreasing_by exact Nat.div_lt_self (Nat.pos_of_ne_zero h) (by omega)

/-- Decimal rendering of a `U512` (`Display` of the `uint` crate):
most-significant digit first, `"0"` for zero. -/
def natToDec (n : Nat) : List Char :=
  if n = 0 then [digitChar 0] else (decDigitsRev n).reverse

/-- `pos_validator_key(pk, stakes)`: the string `"v_{hex_key}_{stake}"`
(`utils.rs` line 31). -/
def pos_validator_key (pk : List Nat) (stakes : Nat) : List Char :=
  'v' :: '_' :: (addr_to_hex pk ++ '_' :: natToDec stakes)

/-- `str::split('_')`: the list of `'_'`-separated segments (always at
least one segment, possibly empty). -/
def splitOnChar (c : Char) : List Char → List (List Char)
  | [] => [[]]
  | x :: xs =>
    if x = c then [] :: splitOnChar c xs
    else
      match splitOnChar c xs with
      | [] => [[x]]
      | y :: ys => (x :: y) :: ys

/-- Hexadecimal value of a char as `char::to_digit(16)` sees it
(`0-9`, `a-f`, `A-F`). -/
def hexCharVal (c : Char) : Option Nat :=
  if 48 ≤ c.toNat ∧ c.toNat ≤ 57 then some (c.toNat - 48)
  else if 97 ≤ c.toNat ∧ c.toNat ≤ 102 then some (c.toNat - 87)
  else if 65 ≤ c.toNat ∧ c.toNat ≤ 70 then some (c.toNat - 55)
  else none

/-- Accumulating loop of `u8::from_str_radix(s, 16)`: each step multiplies
by the radix and adds the digit, failing on a non-digit or on overflow
past `u8::MAX`. -/
def hexFold : List Char → Nat → Option Nat
  | [], acc => some acc
  | c :: cs, acc =>
    match hexCharVal c with
    | none => none
    | some d => if acc * 16 + d ≤ 255 then hexFold cs (acc * 16 + d) else none

/-- `u8::from_str_radix(s, 16)`: fails on the empty string, a non-hex
digit, or overflow. -/
def u8FromStrRadix16 (cs : List Char) : Option Nat :=
  match cs with
  | [] => none
  | _ => hexFold cs 0

/-- Is `c` an ASCII decimal digit? -/
def isDecDigit (c : Char) : Bool := 48 ≤ c.toNat && c.toNat ≤ 57

/-- Numeric value of a decimal digit string (most significant first). -/
def decValue (cs : List Char) : Nat :=
  cs.foldl (fun acc c => acc * 10 + (c.toNat - 48)) 0

/-- `U512::from_dec_str`: every character must be a decimal digit and the
value must fit in 512 bits, else the parse fails. -/
def u512FromDecStr (cs : List Char) : Option Nat :=
  if cs.all isDecDigit then
    if decValue cs < 2 ^ 512 then some (decValue cs) else none
  else none

/-- The byte-reading loop of `pos_validator_to_tuple` (`utils.rs` lines
42–44): for each `i`, slice `&hex_key[2*i..2*(i+1)]` — panicking when the
range exceeds the segment — and parse it as a hex byte; a parse failure
propagates as `None` via `.ok()?`. -/
def sliceStr (s : List Char) (lo hi : Nat) : PanicOr (List Char) :=
  if lo ≤ hi ∧ hi ≤ s.length then .ok ((s.drop lo).take (hi - lo)) else .panicked

/-- Reads `count` bytes from `hex` starting at byte index `i`
(character index `2*i`). -/
def readHexBytes (hex : List Char) (i : Nat) : Nat → PanicOr (Option (List Nat))
  | 0 => .ok (some [])
  | count + 1 =>
    match sliceStr hex (2 * i) (2 * (i + 1)) with
    | .panicked => .panicked
    | .ok sub =>
      match u8FromStrRadix16 sub with
      | none => .ok none
      | some b =>
        match readHexBytes hex (i + 1) count with
        | .panicked => .panicked
        | .ok none => .ok none
        | .ok (some rest) => .ok (some (b :: rest))

/-- `pos_validator_to_tuple(pos_bond)` (`utils.rs` lines 35–48): split on
`'_'`, expect the literal segment `"v"`, read 32 hex bytes from the second
segment (panicking if it is too short), and parse the third segment as a
decimal `U512`. -/
def pos_validator_to_tuple (s : List Char) : PanicOr (Option (List Nat × Nat)) :=
  let segs := splitOnChar '_' s
  if segs.head? ≠ some ['v'] then .ok none
  else
    match segs[1]? with
    | none => .ok none
    | some hexKey =>
      match readHexBytes hexKey 0 32 with
      | .panicked => .panicked
      | .ok none => .ok none
      | .ok (some bytes) =>
        match segs[2]? with
        | none => .ok none
        | some balStr =>
          match u512FromDecStr balStr with
          | none => .ok none
          | some bal => .ok (some (bytes, bal))

/-! ## Keys, values and transforms

The `Key`, `Value` and `Transform` domain types live in `contract_ffi` /
`engine_shared`, outside the sources; their variants are modelled from the
spec (§3) and from the exhaustive matches of
`mappings/transforms/transform.rs`. -/

/-- Modelled from the spec (§3, §6): a tagged state address — `Account`
(32 bytes), `Hash` (32 bytes), `URef` (32-byte id plus an access-rights
bitmask byte). -/
inductive Key where
  | account (bytes : List Nat)
  | hash (bytes : List Nat)
  | uref (id : List Nat) (accessRights : Nat)
deriving DecidableEq, Repr

/-- Protocol version, a `(major, minor, patch)` triple (spec §6). -/
structure ProtocolVersion where
  major : Nat
  minor : Nat
  patch : Nat
deriving DecidableEq, Repr

/-- Modelled from the spec (§3): an account value — public-key-indexed
structure with a main purse, named keys and action thresholds. -/
structure Account where
  pubKey : List Nat
  purseId : List Nat
  namedKeys : List (String × Key)
  actionThresholds : Nat × Nat
deriving DecidableEq, Repr

/-- Modelled from the spec (§3): a stored contract — bytecode, named keys
and a protocol version. -/
structure Contract where
  bytes : List Nat
  namedKeys : List (String × Key)
  protocolVersion : ProtocolVersion
deriving DecidableEq, Repr

/-- Modelled from the spec (§3): the typed payload stored at a `Key`.
The three big unsigned widths carry `Fin (2 ^ w)`, matching the machine
types `U128`/`U256`/`U512`. -/
inductive Value where
  | int32 (i : Int)
  | uint64 (n : Nat)
  | uint128 (n : Fin (2 ^ 128))
  | uint256 (n : Fin (2 ^ 256))
  | uint512 (n : Fin (2 ^ 512))
  | byteArray (bytes : List Nat)
  | stringValue (s : String)
  | unitValue
  | namedKey (name : String) (key : Key)
  | keyValue (key : Key)
  | account (a : Account)
  | contract (c : Contract)
deriving DecidableEq, Repr

/-- The error payload of `Transform::Failure` (`engine_shared`): a type
mismatch carrying the expected and found type names. -/
inductive TransformError where
  | typeMismatch (expected found : String)
deriving DecidableEq, Repr

/-- The transform algebra (spec §3; variants as matched exhaustively in
`mappings/transforms/transform.rs`).  `addKeys` carries the entry list of
a `BTreeMap<String, Key>`; its strictly-sorted-keys invariant is stated
separately as `namedKeysSorted`. -/
inductive Transform where
  | identity
  | addInt32 (i : Int)
  | addUInt64 (n : Nat)
  | addUInt128 (n : Fin (2 ^ 128))
  | addUInt256 (n : Fin (2 ^ 256))
  | addUInt512 (n : Fin (2 ^ 512))
  | write (v : Value)
  | addKeys (m : List (String × Key))
  | failure (e : TransformError)
deriving DecidableEq, Repr

/-- Strict lexicographic order on strings as character lists (the
`BTreeMap` key order). -/
def strLtList : List Char → List Char → Bool
  | [], [] => false
  | [], _ :: _ => true
  | _ :: _, [] => false
  | a :: as, b :: bs =>
    if a.toNat < b.toNat then true
    else if b.toNat < a.toNat then false
    else strLtList as bs

/-- Strict order on strings. -/
def strLt (a b : String) : Bool := strLtList a.data b.data

/-- Is `s` a strict lower bound of the first key of `l` (vacuously true
for an empty list)? -/
def keyLB (s : String) : List (String × Key) → Bool
  | [] => true
  | (n, _) :: _ => strLt s n

/-- The entry list of a `BTreeMap<String, Key>` is strictly sorted by key
(no duplicates). -/
def namedKeysSorted : List (String × Key) → Bool
  | [] => true
  | x :: rest => keyLB x.1 rest && namedKeysSorted rest

/-- `BTreeMap::insert`: replace on an equal key, otherwise keep the
entries ordered. -/
def insertNamed (m : List (String × Key)) (nk : String × Key) : List (String × Key) :=
  match m with
  | [] => [nk]
  | (n, k) :: rest =>
    if strLt nk.1 n then nk :: (n, k) :: rest
    else if nk.1 = n then (nk.1, nk.2) :: rest
    else (n, k) :: insertNamed rest nk

/-- Building a `BTreeMap<String, Key>` from a list of entries by repeated
insertion (the `NamedKeyMap` conversion of the protobuf mappings, whose
body is outside the sources; modelled from the spec §4.3: last writer
wins per key). -/
def insertAllNamed (l : List (String × Key)) : List (String × Key) :=
  l.foldl insertNamed []

/-! ## Protobuf shapes of transforms (`mappings/transforms/transform.rs`) -/

/-- A parsing error from the protobuf mappings (`ParsingError(String)`). -/
def ParsingError := String
deriving DecidableEq, Repr

/-- Modelled from the spec: the protobuf big-integer message carries the
magnitude and its bit width; the Value round-trip (spec §8.5) requires
the width to be recoverable. -/
structure ProtobufBigInt where
  value : Nat
  bitWidth : Nat
deriving DecidableEq, Repr

/-- Modelled from the spec (§1 keeps wire schemas out of scope, so this
mirrors the logical shape): the protobuf `Value`, with one shared
`bigInt` case for the three big unsigned widths. -/
inductive ProtobufValue where
  | int32 (i : Int)
  | uint64 (n : Nat)
  | bigInt (b : ProtobufBigInt)
  | byteArray (bytes : List Nat)
  | stringValue (s : String)
  | unitValue
  | namedKey (name : String) (key : Key)
  | keyValue (key : Key)
  | account (a : Account)
  | contract (c : Contract)
deriving DecidableEq, Repr

/-- The protobuf `TransformFailure` payload (expected/found type names). -/
structure ProtobufFailure where
  expected : String
  found : String
deriving DecidableEq, Repr

/-- The `oneof transform_instance` cases of the protobuf `Transform`. -/
inductive ProtobufTransformInstance where
  | identity
  | addKeys (value : List (String × Key))
  | addI32 (value : Int)
  | addU64 (value : Nat)
  | addBigInt (value : ProtobufBigInt)
  | write (value : ProtobufValue)
  | failure (value : ProtobufFailure)
deriving DecidableEq, Repr

/-- The protobuf `Transform`: an optional `transform_instance`. -/
structure ProtobufTransform where
  transformInstance : Option ProtobufTransformInstance
deriving DecidableEq, Repr

/-- Modelled from the spec: `From<U128/U256/U512> for BigInt` — the
magnitude with its originating bit width. -/
def bigIntOfUInt128 (n : Fin (2 ^ 128)) : ProtobufBigInt := ⟨n.val, 128⟩

/-- See `bigIntOfUInt128`. -/
def bigIntOfUInt256 (n : Fin (2 ^ 256)) : ProtobufBigInt := ⟨n.val, 256⟩

/-- See `bigIntOfUInt128`. -/
def bigIntOfUInt512 (n : Fin (2 ^ 512)) : ProtobufBigInt := ⟨n.val, 512⟩

/-- Modelled from the spec: `TryFrom<BigInt> for Value` — dispatch on the
stored bit width, recovering the magnitude at that width. -/
def valueOfBigInt (b : ProtobufBigInt) : Except ParsingError Value :=
  match b.bitWidth with
  | 128 =>
    if h : b.value < 2 ^ 128 then .ok (.uint128 ⟨b.value, h⟩)
    else .error "BigInt value does not fit in 128 bits"
  | 256 =>
    if h : b.value < 2 ^ 256 then .ok (.uint256 ⟨b.value, h⟩)
    else .error "BigInt value does not fit in 256 bits"
  | 512 =>
    if h : b.value < 2 ^ 512 then .ok (.uint512 ⟨b.value, h⟩)
    else .error "BigInt value does not fit in 512 bits"
  | _ => .error "Protobuf BigInt bit width is not one of 128, 256, 512"

/-- Modelled from the spec: `From<Value> for state::Value` — each variant
maps to its logical protobuf shape, the three big widths through the
shared `bigInt` case. -/
def protobufOfValue : Value → ProtobufValue
  | .int32 i => .int32 i
  | .uint64 n => .uint64 n
  | .uint128 n => .bigInt (bigIntOfUInt128 n)
  | .uint256 n => .bigInt (bigIntOfUInt256 n)
  | .uint512 n => .bigInt (bigIntOfUInt512 n)
  | .byteArray bs => .byteArray bs
  | .stringValue s => .stringValue s
  | .unitValue => .unitValue
  | .namedKey n k => .namedKey n k
  | .keyValue k => .keyValue k
  | .account a => .account a
  | .contract c => .contract c

/-- Modelled from the spec: `TryFrom<state::Value> for Value` — the
inverse direction, with the `bigInt` case dispatching on bit width. -/
def valueOfProtobuf : ProtobufValue → Except ParsingError Value
  | .int32 i => .ok (.int32 i)
  | .uint64 n => .ok (.uint64 n)
  | .bigInt b => valueOfBigInt b
  | .byteArray bs => .ok (.byteArray bs)
  | .stringValue s => .ok (.stringValue s)
  | .unitValue => .ok .unitValue
  | .namedKey n k => .ok (.namedKey n k)
  | .keyValue k => .ok (.keyValue k)
  | .account a => .ok (.account a)
  | .contract c => .ok (.contract c)

/-- `impl From<Transform> for ProtobufTransform`
(`transform.rs` lines 14–47): each variant sets its own case, except the
three big-integer adds which all set `add_big_int`. -/
def protobufOfTransform : Transform → ProtobufTransform
  | .identity => ⟨some .identity⟩
  | .addInt32 i => ⟨some (.addI32 i)⟩
  | .addUInt64 n => ⟨some (.addU64 n)⟩
  | .write v => ⟨some (.write (protobufOfValue v))⟩
  | .addKeys m => ⟨some (.addKeys m)⟩
  | .failure (.typeMismatch e f) => ⟨some (.failure ⟨e, f⟩)⟩
  | .addUInt128 n => ⟨some (.addBigInt (bigIntOfUInt128 n))⟩
  | .addUInt256 n => ⟨some (.addBigInt (bigIntOfUInt256 n))⟩
  | .addUInt512 n => ⟨some (.addBigInt (bigIntOfUInt512 n))⟩

/-- `impl TryFrom<ProtobufTransform> for Transform`
(`transform.rs` lines 49–89): a missing instance is a parse error; the
`add_big_int` case converts the BigInt to a `Value` and dispatches on the
recovered width, rejecting non-uint values. -/
def transformOfProtobuf (pt : ProtobufTransform) : Except ParsingError Transform :=
  match pt.transformInstance with
  | none => .error "Unable to parse Protobuf Transform"
  | some inst =>
    match inst with
    | .identity => .ok .identity
    | .addKeys v => .ok (.addKeys (insertAllNamed v))
    | .addI32 i => .ok (.addInt32 i)
    | .addU64 n => .ok (.addUInt64 n)
    | .addBigInt b =>
      match valueOfBigInt b with
      | .error e => .error e
      | .ok (.uint128 n) => .ok (.addUInt128 n)
      | .ok (.uint256 n) => .ok (.addUInt256 n)
      | .ok (.uint512 n) => .ok (.addUInt512 n)
      | .ok _ => .error "Protobuf BigInt was turned into a non-uint Value type"
    | .write pv =>
      match valueOfProtobuf pv with
      | .error e => .error e
      | .ok v => .ok (.write v)
    | .failure f => .ok (.failure (.typeMismatch f.expected f.found))

/-- The `BTreeMap` invariant carried by `Transform::AddKeys` values in the
Rust code: the entry list is strictly sorted by key. -/
def TransformWF : Transform → Prop
  | .addKeys m => namedKeysSorted m = true
  | _ => True

/-! ## Commit (`mod.rs` lines 249–355) -/

/-- A 32-byte Blake2b state digest (spec §3). -/
structure Blake2bHash where
  bytes : List Nat
deriving DecidableEq, Repr

/-- `Blake2bHash::try_from(&[u8])`: succeeds exactly on 32 bytes. -/
def parseBlake2bHash (bs : List Nat) : Except String Blake2bHash :=
  if bs.length = 32 then .ok ⟨bs⟩ else .error "Invalid hash length"

/-- `DEFAULT_PROTOCOL_VERSION` (`mod.rs` line 62): `1.0.0`. -/
def DEFAULT_PROTOCOL_VERSION : ProtocolVersion := ⟨1, 0, 0⟩

/-- Strict lexicographic order on protocol versions (the `Ord` of
`contract_ffi::ProtocolVersion`, spec §4.7: monotone 3-tuples). -/
def pvLt (a b : ProtocolVersion) : Bool :=
  if a.major < b.major then true
  else if b.major < a.major then false
  else if a.minor < b.minor then true
  else if b.minor < a.minor then false
  else a.patch < b.patch

/-- `take_protocol_version().into()`: an omitted protobuf message reads as
its default instance, `0.0.0`. -/
def takeProtocolVersion (o : Option ProtocolVersion) : ProtocolVersion :=
  o.getD ⟨0, 0, 0⟩

/-- The protocol-version normalisation at the top of `commit`
(`mod.rs` lines 257–265): any version below `1.0.0` becomes `1.0.0`. -/
def commitEffectiveProtocolVersion (o : Option ProtocolVersion) : ProtocolVersion :=
  let pv := takeProtocolVersion o
  if pvLt pv DEFAULT_PROTOCOL_VERSION then DEFAULT_PROTOCOL_VERSION else pv

/-- One entry of the protobuf commit effects: a wire key (modelled by its
parse result) and a wire transform. -/
structure TransformEntry where
  key : Except ParsingError Key
  transform : ProtobufTransform

/-- Conversion of one `TransformEntry` into a `(Key, Transform)` pair
(the per-entry step of the `TransformMap` conversion; the transform side
is `transform.rs`'s `TryFrom`). -/
def convertTransformEntry (e : TransformEntry) : Except ParsingError (Key × Transform) := do
  let k ← e.key
  let t ← transformOfProtobuf e.transform
  pure (k, t)

/-- Modelled from the spec (§4.2 `effects()` is "the serialized log, with
no deduplication"; §4.1 commit consumes an ordered `list<(Key,Transform)>`):
the `TransformMap` conversion used by `commit` (`mod.rs` line 282), whose
body is outside the sources, converts each submitted entry in order. -/
def TransformMap_tryFrom : List TransformEntry →
    Except ParsingError (List (Key × Transform))
  | [] => .ok []
  | e :: rest =>
    match convertTransformEntry e with
    | .error msg => .error msg
    | .ok p =>
      match TransformMap_tryFrom rest with
      | .error msg => .error msg
      | .ok ps => .ok (p :: ps)

/-- The global state at one trie root: a partial map from keys to
values. -/
def GlobalState := Key → Option Value

/-- Failure of applying a transform during commit (spec §4.1 results). -/
inductive ApplyError where
  | keyNotFound (k : Key)
  | typeMismatch (expected found : String)
deriving DecidableEq, Repr

/-- Saturating unsigned addition below `bound` (spec §4.3: bounded adds
saturate at the type's maximum). -/
def satAdd (bound a b : Nat) : Nat := min (a + b) (bound - 1)

/-- Saturating `i32` addition. -/
def satAddI32 (a b : Int) : Int := max (-(2 ^ 31)) (min (a + b) (2 ^ 31 - 1))

/-- Modelled from the spec (§4.1 "read current value through the reader;
apply Transform to produce new value", §4.3 transform semantics): apply
one transform to the current value of a key.  `Write` always succeeds;
every other transform needs an existing value of a matching type;
`AddKeys` merges into the named keys of an account or contract,
last writer wins. -/
def applyTransform (t : Transform) (cur : Option Value) : Except ApplyError Value :=
  match t, cur with
  | .write v, _ => .ok v
  | _, none => .error (.keyNotFound (Key.account []))
  | .identity, some v => .ok v
  | .addInt32 i, some (.int32 j) => .ok (.int32 (satAddI32 j i))
  | .addUInt64 n, some (.uint64 m) => .ok (.uint64 (satAdd (2 ^ 64) m n))
  | .addUInt128 n, some (.uint128 m) =>
    .ok (.uint128 ⟨satAdd (2 ^ 128) m.val n.val, by
      have h : 0 < 2 ^ 128 := Nat.pos_pow_of_pos _ (by omega)
      simp only [satAdd]
      omega⟩)
  | .addUInt256 n, some (.uint256 m) =>
    .ok (.uint256 ⟨satAdd (2 ^ 256) m.val n.val, by
      have h : 0 < 2 ^ 256 := Nat.pos_pow_of_pos _ (by omega)
      simp only [satAdd]
      omega⟩)
  | .addUInt512 n, some (.uint512 m) =>
    .ok (.uint512 ⟨satAdd (2 ^ 512) m.val n.val, by
      have h : 0 < 2 ^ 512 := Nat.pos_pow_of_pos _ (by omega)
      simp only [satAdd]
      omega⟩)
  | .addKeys m, some (.account a) =>
    .ok (.account { a with namedKeys := m.foldl insertNamed a.namedKeys })
  | .addKeys m, some (.contract c) =>
    .ok (.contract { c with namedKeys := m.foldl insertNamed c.namedKeys })
  | .failure e, some _ =>
    match e with
    | .typeMismatch exp fnd => .error (.typeMismatch exp fnd)
  | _, some _ => .error (.typeMismatch "numeric or named-keys value" "other")

/-- Modelled from the spec (§4.1 commit algorithm): stage the effects in
submitted order — read the current value, apply the transform, stage the
write; the first failure aborts the whole commit. -/
def applyEffects (st : GlobalState) : List (Key × Transform) → Except ApplyError GlobalState
  | [] => .ok st
  | (k, t) :: rest =>
    match applyTransform t (st k) with
    | .error (.keyNotFound _) => .error (.keyNotFound k)
    | .error (.typeMismatch e f) => .error (.typeMismatch e f)
    | .ok v => applyEffects (fun k' => if k' = k then some v else st k') rest

/-- `CommitResult` of the global-state provider (spec §4.1). -/
inductive CommitResult where
  | success (stateRoot : Blake2bHash) (bondedValidators : List (List Nat × Nat))
  | rootNotFound
  | keyNotFound (k : Key)
  | typeMismatch (expected found : String)
deriving DecidableEq, Repr

/-- Modelled from the spec (§4.1): `EngineState::apply_effect` — check
out the pre-state (a storage error propagates as `Err`), apply the
effects in order, and compute the new root on success.  The store, the
root hashing and the bonded-validators extraction are the provider's
contract and enter as parameters. -/
def apply_effect (store : Blake2bHash → Except String (Option GlobalState))
    (root : GlobalState → Blake2bHash)
    (bonds : GlobalState → List (List Nat × Nat))
    (pv : ProtocolVersion) (pre : Blake2bHash) (ts : List (Key × Transform)) :
    Except String CommitResult :=
  match store pre with
  | .error e => .error e
  | .ok none => .ok .rootNotFound
  | .ok (some st) =>
    match applyEffects st ts with
    | .error (.keyNotFound k) => .ok (.keyNotFound k)
    | .error (.typeMismatch e f) => .ok (.typeMismatch e f)
    | .ok st' => .ok (.success (root st') (bonds st'))

/-- The protobuf commit request (`CommitRequest`): protocol version
(optional message), raw pre-state hash bytes, and the effects. -/
structure CommitRequest where
  protocolVersion : Option ProtocolVersion
  prestateHash : List Nat
  effects : List TransformEntry

/-- The protobuf commit response variants (`mod.rs` lines 294–345). -/
inductive CommitResponse where
  | success (postStateHash : List Nat) (bondedValidators : List (List Nat × Nat))
  | missingPrestate (hash : List Nat)
  | keyNotFound (k : Key)
  | typeMismatch (expected found : String)
  | failedTransform (message : String)
deriving DecidableEq, Repr

/-- `ExecutionEngineService::commit` (`mod.rs` lines 249–355): normalise
the protocol version, parse the pre-state hash (failure → FailedTransform),
convert the effects (failure → FailedTransform), apply them, and map the
commit result onto the response. -/
def commit (store : Blake2bHash → Except String (Option GlobalState))
    (root : GlobalState → Blake2bHash)
    (bonds : GlobalState → List (List Nat × Nat))
    (req : CommitRequest) : CommitResponse :=
  let pv := commitEffectiveProtocolVersion req.protocolVersion
  match parseBlake2bHash req.prestateHash with
  | .error _ => .failedTransform "Could not parse pre-state hash"
  | .ok pre =>
    match TransformMap_tryFrom req.effects with
    | .error msg => .failedTransform msg
    | .ok transforms =>
      match apply_effect store root bonds pv pre transforms with
      | .ok (.success r b) => .success r.bytes b
      | .ok .rootNotFound => .missingPrestate pre.bytes
      | .ok (.keyNotFound k) => .keyNotFound k
      | .ok (.typeMismatch e f) => .typeMismatch e f
      | .error e => .failedTransform ("State error when applying transforms: " ++ e)

/-! ## Execute (`mod.rs` lines 165–247) -/

/-- Modelled from the spec (§4.6): a deploy item — session and payment
programs submitted by an authorized account. -/
structure DeployItem where
  address : List Nat
  sessionBytes : List Nat
  paymentBytes : List Nat
  authorizationKeys : List (List Nat)
deriving DecidableEq, Repr

/-- A deploy-to-`DeployItem` mapping error (`MappingError`). -/
def MappingError := String
deriving DecidableEq, Repr

/-- The per-deploy execution result as the service layer sees it:
either a precondition failure (also produced for mapping errors,
`mod.rs` line 231) or an executed deploy with its effects and cost. -/
inductive ExecutionResult where
  | preconditionFailure (message : String)
  | executed (effects : List (Key × Transform)) (cost : Nat)
deriving DecidableEq, Repr

/-- The protobuf execute response variants. -/
inductive ExecuteResponse where
  | missingParent (hash : List Nat)
  | success (deployResults : List ExecutionResult)
deriving DecidableEq, Repr

/-- The protobuf execute request: parent digest (already length-checked:
`mod.rs` panics earlier on a wrong-length hash), block time, protocol
version, and the deploys, each modelled by its `TryInto<DeployItem>`
result (`mod.rs` line 200). -/
structure ExecuteRequest where
  parentStateHash : Blake2bHash
  blockTime : Nat
  protocolVersion : Option ProtocolVersion
  deploys : List (Except MappingError DeployItem)

/-- Modelled from the spec (§4.1 `checkout(digest)` is `None` for an
unknown digest; §4.6 opens a tracking copy over the parent state):
`EngineState::deploy` returns `Err(RootNotFound(parent))` when the parent
digest is unknown, and otherwise produces the deploy's execution result
(the pipeline itself enters as the `run` parameter). -/
def deployModel (known : Blake2bHash → Bool)
    (run : ProtocolVersion → Blake2bHash → Nat → DeployItem → ExecutionResult)
    (pv : ProtocolVersion) (parent : Blake2bHash) (blockTime : Nat)
    (d : DeployItem) : Except Blake2bHash ExecutionResult :=
  if known parent then .ok (run pv parent blockTime d) else .error parent

/-- The deploy loop of `execute` (`mod.rs` lines 197–234): mapping errors
push a precondition failure and continue; a `RootNotFound` from `deploy`
returns `MissingParent` immediately; otherwise results accumulate and the
response is `Success` with all of them. -/
def executeLoop (known : Blake2bHash → Bool)
    (run : ProtocolVersion → Blake2bHash → Nat → DeployItem → ExecutionResult)
    (pv : ProtocolVersion) (parent : Blake2bHash) (blockTime : Nat) :
    List (Except MappingError DeployItem) → List ExecutionResult → ExecuteResponse
  | [], acc => .success acc.reverse
  | .error msg :: rest, acc =>
    executeLoop known run pv parent blockTime rest (.preconditionFailure msg :: acc)
  | .ok d :: rest, acc =>
    match deployModel known run pv parent blockTime d with
    | .ok r => executeLoop known run pv parent blockTime rest (r :: acc)
    | .error h => .missingParent h.bytes

/-- `ExecutionEngineService::execute` (`mod.rs` lines 165–247). -/
def execute (known : Blake2bHash → Bool)
    (run : ProtocolVersion → Blake2bHash → Nat → DeployItem → ExecutionResult)
    (req : ExecuteRequest) : ExecuteResponse :=
  executeLoop known run (takeProtocolVersion req.protocolVersion)
    req.parentStateHash req.blockTime req.deploys []

/-! ## Query (`mod.rs` lines 75–163) -/

/-- The outcome of `TrackingCopy::query` (spec §4.2): a traversal error,
`ValueNotFound` with the path walked, or the value found. -/
inductive TCQueryOutcome where
  | error (message : String)
  | valueNotFound (path : List String)
  | success (v : Value)
deriving DecidableEq, Repr

/-- The protobuf query response variants. -/
inductive QueryResponse where
  | success (v : Value)
  | failure (message : String)
deriving DecidableEq, Repr

/-- The protobuf query request: state digest (already length-checked, as
`mod.rs` unwraps the conversion), the wire base key modelled by its parse
result (`mod.rs` line 115), and the path. -/
structure QueryRequest where
  stateHash : Blake2bHash
  baseKey : Except ParsingError Key
  path : List String

/-- `ExecutionEngineService::query` (`mod.rs` lines 75–163): checkout
errors, an unknown root, an unparsable base key, a traversal error and
`ValueNotFound` each yield `Failure` with a message; only a successful
walk yields `Success` with the value.  The tracking-copy checkout
(`Err` / `Ok(None)` / `Ok(Some _)`) and the path walk enter as
parameters. -/
def query (checkout : Blake2bHash → Except String Bool)
    (walk : Blake2bHash → Key → List String → TCQueryOutcome)
    (req : QueryRequest) : QueryResponse :=
  match checkout req.stateHash with
  | .error e => .failure ("Error during checkout out Trie: " ++ e)
  | .ok false => .failure "Root not found"
  | .ok true =>
    match req.baseKey with
    | .error msg => .failure msg
    | .ok key =>
      match walk req.stateHash key req.path with
      | .error err => .failure err
      | .valueNotFound _ => .failure "Value not found"
      | .success v => .success v

/-! ## The finalize-payment contract
(`contracts/integration/finalize-payment/src/lib.rs`) -/

/-- A purse: the 32-byte id of its URef (`PurseId`). -/
structure PurseId where
  id : List Nat
deriving DecidableEq, Repr

/-- `contract_api::Error` as used by the contract: a user-defined code. -/
inductive ApiError where
  | user (code : Nat)
deriving DecidableEq, Repr

/-- The effectful host calls the finalize-payment contract performs, in
order (spec §4.5 host API surface). -/
inductive HostOp where
  | transferFromPurseToPurse (src dst : PurseId) (amount : Nat)
  | createPurse (p : PurseId)
  | putKey (name : String) (k : Key)
  | setRefundPurse (p : PurseId)
  | finalizePayment (amountSpent : Nat) (account : List Nat)
deriving DecidableEq, Repr

/-- How a run of the contract's `call` ends: a `revert(code)` or a normal
return. -/
inductive CallOutcome where
  | reverted (e : ApiError)
  | completed
deriving DecidableEq, Repr

/-- The host environment of one run of the contract: its four arguments
(`get_arg(0..3)`, all present — `call` unwraps them), the purses the host
hands out, and whether the purse-to-purse transfer succeeds. -/
structure FinalizeEnv where
  paymentAmount : Nat
  refundPurseFlag : Nat
  amountSpent : Nat
  account : List Nat
  mainPurse : PurseId
  paymentPurse : PurseId
  freshPurse : PurseId
  transferOk : Bool

/-- `purse_to_key` (`lib.rs` lines 15–17): `Key::URef(p.value())`; the
rights mask is the full grant a freshly created purse carries (spec §4.5:
`new_uref` grants full rights, bits read/write/add). -/
def purseToKey (p : PurseId) : Key := Key.uref p.id 7

/-- `submit_payment` (`lib.rs` lines 31–37): transfer `amount` from the
caller's main purse to the PoS payment purse; on error
`revert(Error::User(99))`. -/
def submitPayment (env : FinalizeEnv) : List HostOp × Option ApiError :=
  ([.transferFromPurseToPurse env.mainPurse env.paymentPurse env.paymentAmount],
   if env.transferOk then none else some (.user 99))

/-- `call` (`lib.rs` lines 47–63): submit the payment (reverting with
user code 99 on a failed transfer); then, exactly when the refund flag
(argument 1) is nonzero, create a fresh purse, store it under the named
key `"local_refund_purse"` and register it via `set_refund_purse`;
finally call PoS `finalize_payment`. -/
def finalizePaymentCall (env : FinalizeEnv) : List HostOp × CallOutcome :=
  let (payOps, payErr) := submitPayment env
  match payErr with
  | some e => (payOps, .reverted e)
  | none =>
    let refundOps :=
      if env.refundPurseFlag ≠ 0 then
        [.createPurse env.freshPurse,
         .putKey "local_refund_purse" (purseToKey env.freshPurse),
         .setRefundPurse env.freshPurse]
      else []
    (payOps ++ refundOps ++ [.finalizePayment env.amountSpent env.account], .completed)

/-- Modelled from the spec (§4.6 step 4: PoS "refunds `P - spent` to
either the account's main purse or the explicit refund purse set earlier
by `set_refund_purse`"): the purse the refund goes to, given the host
operations performed before `finalize_payment`. -/
def refundTarget (ops : List HostOp) (mainPurse : PurseId) : PurseId :=
  match ops.reverse.findSome?
      (fun op => match op with | .setRefundPurse p => some p | _ => none) with
  | some p => p
  | none => mainPurse

/-! ## Lemmas: hex and decimal digit round trips -/

theorem hexCharVal_hexDigit (d : Nat) (hd : d < 16) :
    hexCharVal (hexDigit d) = some d := by
  interval_cases d <;> rfl

theorem hexDigit_ne_underscore (d : Nat) (hd : d < 16) : hexDigit d ≠ '_' := by
  interval_cases d <;> decide

theorem u8FromStrRadix16_byteToHex (b : Nat) (hb : b < 256) :
    u8FromStrRadix16 (byteToHex b) = some b := by
  have h1 : b / 16 < 16 := by omega
  have h2 : b % 16 < 16 := by omega
  simp only [byteToHex, u8FromStrRadix16, hexFold,
    hexCharVal_hexDigit _ h1, hexCharVal_hexDigit _ h2]
  rw [if_pos (by omega), if_pos (by omega)]
  congr 1
  omega

theorem digitChar_toNat (d : Nat) (hd : d < 10) : (digitChar d).toNat = 48 + d := by
  interval_cases d <;> rfl

theorem isDecDigit_digitChar (d : Nat) (hd : d < 10) :
    isDecDigit (digitChar d) = true := by
  interval_cases d <;> rfl

theorem decValue_reverse_decDigitsRev (n : Nat) : ∀ acc : Nat,
    List.foldl (fun acc c => acc * 10 + (c.toNat - 48)) acc (decDigitsRev n).reverse =
      acc * 10 ^ (decDigitsRev n).length + n := by
  induction n using Nat.strong_induction_on with
  | _ n ih =>
    intro acc
    by_cases h : n = 0
    · subst h; simp [decDigitsRev]
    · rw [decDigitsRev, dif_neg h]
      have hlt : n / 10 < n := Nat.div_lt_self (Nat.pos_of_ne_zero h) (by omega)
      have hmod : n % 10 < 10 := by omega
      simp only [List.reverse_cons, List.foldl_append, List.foldl_cons, List.foldl_nil,
        List.length_cons, ih (n / 10) hlt acc, digitChar_toNat _ hmod]
      have hq : 10 * (n / 10) + n % 10 = n := Nat.div_add_mod n 10
      calc (acc * 10 ^ (decDigitsRev (n / 10)).length + n / 10) * 10 + (48 + n % 10 - 48)
          = acc * (10 ^ (decDigitsRev (n / 10)).length * 10) + (10 * (n / 10) + n % 10) := by
            ring_nf
            omega
        _ = acc * 10 ^ ((decDigitsRev (n / 10)).length + 1) + n := by
            rw [hq, pow_succ]

theorem decValue_natToDec (n : Nat) : decValue (natToDec n) = n := by
  unfold natToDec decValue
  by_cases h : n = 0
  · subst h; rfl
  · rw [if_neg h]
    simpa using decValue_reverse_decDigitsRev n 0

theorem decDigitsRev_digits (n : Nat) :
    ∀ c ∈ decDigitsRev n, isDecDigit c = true := by
  induction n using Nat.strong_induction_on with
  | _ n ih =>
    intro c hc
    by_cases h : n = 0
    · subst h; simp [decDigitsRev] at hc
    · rw [decDigitsRev, dif_neg h] at hc
      have hlt : n / 10 < n := Nat.div_lt_self (Nat.pos_of_ne_zero h) (by omega)
      rcases List.mem_cons.mp hc with rfl | hc
      · exact isDecDigit_digitChar _ (by omega)
      · exact ih (n / 10) hlt c hc

theorem natToDec_digits (n : Nat) : ∀ c ∈ natToDec n, isDecDigit c = true := by
  intro c hc
  unfold natToDec at hc
  by_cases h : n = 0
  · rw [if_pos h] at hc
    simp at hc
    subst hc; rfl
  · rw [if_neg h] at hc
    exact decDigitsRev_digits n c (List.mem_reverse.mp hc)

theorem isDecDigit_ne_underscore (c : Char) (h : isDecDigit c = true) : c ≠ '_' := by
  intro heq
  subst heq
  simp [isDecDigit] at h

theorem u512FromDecStr_natToDec (n : Nat) (hn : n < 2 ^ 512) :
    u512FromDecStr (natToDec n) = some n := by
  unfold u512FromDecStr
  rw [if_pos (List.all_eq_true.mpr (natToDec_digits n)), decValue_natToDec]
  rw [if_pos hn]

theorem underscore_not_mem_natToDec (n : Nat) : '_' ∉ natToDec n := by
  intro hmem
  exact isDecDigit_ne_underscore _ (natToDec_digits n _ hmem) rfl

theorem underscore_not_mem_addr_to_hex (pk : List Nat) (h : ∀ b ∈ pk, b < 256) :
    '_' ∉ addr_to_hex pk := by
  intro hmem
  rcases List.mem_flatMap.mp hmem with ⟨b, hb, hc⟩
  have hb256 := h b hb
  rcases List.mem_cons.mp hc with heq | hc
  · exact hexDigit_ne_underscore (b / 16) (by omega) heq.symm
  · rcases List.mem_cons.mp hc with heq | hc
    · exact hexDigit_ne_underscore (b % 16) (by omega) heq.symm
    · simp at hc

/-! ## Lemmas: `split('_')` -/

theorem splitOnChar_of_not_mem (c : Char) (xs : List Char) (h : c ∉ xs) :
    splitOnChar c xs = [xs] := by
  induction xs with
  | nil => rfl
  | cons x xs ih =>
    have hx : ¬(x = c) := fun e => h (by simp [e])
    have ht : c ∉ xs := fun hc => h (List.mem_cons_of_mem _ hc)
    simp only [splitOnChar, if_neg hx, ih ht]

theorem splitOnChar_append (c : Char) (xs ys : List Char) (h : c ∉ xs) :
    splitOnChar c (xs ++ c :: ys) = xs :: splitOnChar c ys := by
  induction xs with
  | nil => simp [splitOnChar]
  | cons x xs ih =>
    have hx : ¬(x = c) := fun e => h (by simp [e])
    have ht : c ∉ xs := fun hc => h (List.mem_cons_of_mem _ hc)
    simp only [List.cons_append, splitOnChar, if_neg hx, List.append_eq, ih ht]

/-! ## Lemmas: the hex-byte reading loop -/

theorem addr_to_hex_cons (b : Nat) (rest : List Nat) :
    addr_to_hex (b :: rest) = byteToHex b ++ addr_to_hex rest := by
  simp [addr_to_hex]

theorem readHexBytes_complete (pk : List Nat) (hbytes : ∀ b ∈ pk, b < 256) :
    ∀ (i : Nat) (hex : List Char), hex.drop (2 * i) = addr_to_hex pk →
    2 * i ≤ hex.length →
    readHexBytes hex i pk.length = .ok (some pk) := by
  induction pk with
  | nil => intro i hex _ _; rfl
  | cons b rest ih =>
    intro i hex hdrop hlen
    have hb : b < 256 := hbytes b (List.mem_cons_self _ _)
    have hrest : ∀ x ∈ rest, x < 256 := fun x hx => hbytes x (List.mem_cons_of_mem _ hx)
    have hdlen : (hex.drop (2 * i)).length = hex.length - 2 * i := List.length_drop _ _
    rw [hdrop, addr_to_hex_cons] at hdlen
    have hblen : (byteToHex b).length = 2 := rfl
    have hlen2 : 2 * (i + 1) ≤ hex.length := by
      simp [hblen] at hdlen
      omega
    have hslice : sliceStr hex (2 * i) (2 * (i + 1)) = .ok (byteToHex b) := by
      unfold sliceStr
      rw [if_pos ⟨by omega, hlen2⟩]
      have h2 : 2 * (i + 1) - 2 * i = 2 := by omega
      rw [h2, hdrop, addr_to_hex_cons, ← hblen, List.take_left]
    have hdrop2 : hex.drop (2 * (i + 1)) = addr_to_hex rest := by
      have h21 : 2 * (i + 1) = 2 * i + 2 := by omega
      rw [h21, ← List.drop_drop, hdrop, addr_to_hex_cons, ← hblen, List.drop_left]
    show readHexBytes hex i (rest.length + 1) = .ok (some (b :: rest))
    simp only [readHexBytes, hslice, u8FromStrRadix16_byteToHex b hb,
      ih hrest (i + 1) hex hdrop2 hlen2]

/-- C9: for every 32-byte public key `pk` (each byte below 256) and every
`U512` stake `s`, `pos_validator_to_tuple (pos_validator_key pk s)`
returns `Some (pk, s)` (and does not panic): parsing is a left inverse of
the `"v_{hex_key}_{stake}"` formatting. -/
theorem pos_validator_to_tuple_roundtrip (pk : List Nat) (s : Nat)
    (hlen : pk.length = 32) (hbytes : ∀ b ∈ pk, b < 256) (hs : s < 2 ^ 512) :
    pos_validator_to_tuple (pos_validator_key pk s) = .ok (some (pk, s)) := by
  have hhex : '_' ∉ addr_to_hex pk := underscore_not_mem_addr_to_hex pk hbytes
  have hdec : '_' ∉ natToDec s := underscore_not_mem_natToDec s
  have hsplit : splitOnChar '_' (pos_validator_key pk s) =
      [['v'], addr_to_hex pk, natToDec s] := by
    show splitOnChar '_' (['v'] ++ '_' :: (addr_to_hex pk ++ '_' :: natToDec s)) =
      [['v'], addr_to_hex pk, natToDec s]
    rw [splitOnChar_append '_' ['v'] _ (by decide),
      splitOnChar_append '_' _ _ hhex,
      splitOnChar_of_not_mem '_' _ hdec]
  unfold pos_validator_to_tuple
  simp only [hsplit, List.head?_cons]
  rw [if_neg (by simp)]
  have hread : readHexBytes (addr_to_hex pk) 0 32 = .ok (some pk) := by
    rw [← hlen]
    exact readHexBytes_complete pk hbytes 0 (addr_to_hex pk) rfl (by omega)
  simp only [List.getElem?_cons_succ, List.getElem?_cons_zero, hread,
    u512FromDecStr_natToDec s hs]

/-- Witness for C9 at a concrete key and stake. -/
theorem pos_validator_to_tuple_roundtrip_witness :
    pos_validator_to_tuple (pos_validator_key (List.replicate 32 7) 42) =
      .ok (some (List.replicate 32 7, 42)) :=
  pos_validator_to_tuple_roundtrip (List.replicate 32 7) 42 (by decide)
    (by decide) (by norm_num)

set_option maxRecDepth 10000 in
/-- C10: `pos_validator_to_tuple` is not total — on the malformed input
`"v_ab_1"`, whose second `'_'`-separated segment has fewer than 64
characters, the byte-range indexing `&hex_key[2*i..2*(i+1)]` goes past the
end of the segment and panics instead of returning `None`. -/
theorem pos_validator_to_tuple_panics_on_short_key :
    pos_validator_to_tuple "v_ab_1".data = .panicked := by decide

/-! ## Lemmas: string order and `BTreeMap` insertion -/

theorem strLtList_irrefl (a : List Char) : strLtList a a = false := by
  induction a with
  | nil => rfl
  | cons x xs ih => simp [strLtList, ih]

theorem strLtList_asymm (a b : List Char) (h : strLtList a b = true) :
    strLtList b a = false := by
  induction a generalizing b with
  | nil =>
    cases b with
    | nil => simp [strLtList] at h
    | cons y ys => rfl
  | cons x xs ih =>
    cases b with
    | nil => simp [strLtList] at h
    | cons y ys =>
      simp only [strLtList] at h ⊢
      by_cases h1 : x.toNat < y.toNat
      · rw [if_neg (by omega), if_pos h1]
      · rw [if_neg h1] at h
        by_cases h2 : y.toNat < x.toNat
        · rw [if_pos h2] at h; cases h
        · rw [if_neg h2] at h
          rw [if_neg h2, if_neg h1]
          exact ih ys h

theorem strLtList_ne (a b : List Char) (h : strLtList a b = true) : a ≠ b := by
  intro heq
  subst heq
  rw [strLtList_irrefl] at h
  cases h

theorem strLtList_trans (a b c : List Char) (hab : strLtList a b = true)
    (hbc : strLtList b c = true) : strLtList a c = true := by
  induction a generalizing b c with
  | nil =>
    cases c with
    | nil =>
      cases b with
      | nil => exact hab
      | cons y ys => simp [strLtList] at hbc
    | cons z zs => rfl
  | cons x xs ih =>
    cases b with
    | nil => simp [strLtList] at hab
    | cons y ys =>
      cases c with
      | nil => simp [strLtList] at hbc
      | cons z zs =>
        simp only [strLtList] at hab hbc ⊢
        by_cases hxy : x.toNat < y.toNat
        · by_cases hyz : y.toNat < z.toNat
          · rw [if_pos (by omega)]
          · rw [if_neg hyz] at hbc
            by_cases hzy : z.toNat < y.toNat
            · rw [if_pos hzy] at hbc; cases hbc
            · rw [if_pos (by omega)]
        · rw [if_neg hxy] at hab
          by_cases hyx : y.toNat < x.toNat
          · rw [if_pos hyx] at hab; cases hab
          · rw [if_neg hyx] at hab
            by_cases hyz : y.toNat < z.toNat
            · rw [if_pos (by omega)]
            · rw [if_neg hyz] at hbc
              by_cases hzy : z.toNat < y.toNat
              · rw [if_pos hzy] at hbc; cases hbc
              · rw [if_neg hzy] at hbc
                rw [if_neg (by omega), if_neg (by omega)]
                exact ih ys zs hab hbc

theorem strLt_asymm (a b : String) (h : strLt a b = true) : strLt b a = false :=
  strLtList_asymm a.data b.data h

theorem strLt_ne (a b : String) (h : strLt a b = true) : a ≠ b := by
  intro heq
  subst heq
  rw [strLt, strLtList_irrefl] at h
  cases h

theorem strLt_trans (a b c : String) (hab : strLt a b = true)
    (hbc : strLt b c = true) : strLt a c = true :=
  strLtList_trans a.data b.data c.data hab hbc

theorem sorted_cons (x : String × Key) (l : List (String × Key))
    (h : namedKeysSorted (x :: l) = true) :
    keyLB x.1 l = true ∧ namedKeysSorted l = true := by
  simpa [namedKeysSorted] using h

theorem sorted_lt_first (l : List (String × Key)) (x : String × Key)
    (rest : List (String × Key)) (hs : namedKeysSorted (l ++ x :: rest) = true) :
    ∀ a ∈ l, strLt a.1 x.1 = true := by
  induction l with
  | nil => intro a ha; simp at ha
  | cons b l' ih =>
    intro a ha
    rw [List.cons_append] at hs
    obtain ⟨hlb, hs'⟩ := sorted_cons b (l' ++ x :: rest) hs
    rcases List.mem_cons.mp ha with rfl | ha'
    · cases l' with
      | nil => simpa [keyLB] using hlb
      | cons c l'' =>
        have hbc : strLt a.1 c.1 = true := by simpa [keyLB] using hlb
        have hcx : strLt c.1 x.1 = true :=
          ih hs' c (List.mem_cons_self _ _)
        exact strLt_trans _ _ _ hbc hcx
    · exact ih hs' a ha'

theorem insertNamed_sorted_append (acc : List (String × Key)) (x : String × Key)
    (rest : List (String × Key))
    (hs : namedKeysSorted (acc ++ x :: rest) = true) :
    insertNamed acc x = acc ++ [x] := by
  induction acc with
  | nil => rfl
  | cons b acc' ih =>
    have hbx : strLt b.1 x.1 = true :=
      sorted_lt_first (b :: acc') x rest hs b (List.mem_cons_self _ _)
    have hs' : namedKeysSorted (acc' ++ x :: rest) = true := by
      rw [List.cons_append] at hs
      exact (sorted_cons b _ hs).2
    show insertNamed (b :: acc') x = b :: (acc' ++ [x])
    rw [insertNamed]
    rw [if_neg (by rw [strLt_asymm _ _ hbx]; simp),
      if_neg (Ne.symm (strLt_ne _ _ hbx)), ih hs']

theorem foldl_insertNamed_sorted (l : List (String × Key)) :
    ∀ acc, namedKeysSorted (acc ++ l) = true →
    List.foldl insertNamed acc l = acc ++ l := by
  induction l with
  | nil => intro acc _; simp
  | cons x l' ih =>
    intro acc hs
    have hins : insertNamed acc x = acc ++ [x] :=
      insertNamed_sorted_append acc x l' hs
    have hs' : namedKeysSorted ((acc ++ [x]) ++ l') = true := by
      simpa [List.append_assoc] using hs
    calc List.foldl insertNamed acc (x :: l')
        = List.foldl insertNamed (acc ++ [x]) l' := by rw [List.foldl_cons, hins]
      _ = (acc ++ [x]) ++ l' := ih (acc ++ [x]) hs'
      _ = acc ++ x :: l' := by simp

theorem insertAllNamed_of_sorted (m : List (String × Key))
    (hs : namedKeysSorted m = true) : insertAllNamed m = m := by
  have := foldl_insertNamed_sorted m [] (by simpa using hs)
  simpa [insertAllNamed] using this

/-! ## Lemmas: value round trip -/

theorem valueOfBigInt_ofUInt128 (n : Fin (2 ^ 128)) :
    valueOfBigInt (bigIntOfUInt128 n) = .ok (.uint128 n) := by
  show (if h : n.val < 2 ^ 128 then (Except.ok (Value.uint128 ⟨n.val, h⟩) :
      Except ParsingError Value)
    else .error "BigInt value does not fit in 128 bits") = .ok (.uint128 n)
  rw [dif_pos n.isLt]

theorem valueOfBigInt_ofUInt256 (n : Fin (2 ^ 256)) :
    valueOfBigInt (bigIntOfUInt256 n) = .ok (.uint256 n) := by
  show (if h : n.val < 2 ^ 256 then (Except.ok (Value.uint256 ⟨n.val, h⟩) :
      Except ParsingError Value)
    else .error "BigInt value does not fit in 256 bits") = .ok (.uint256 n)
  rw [dif_pos n.isLt]

theorem valueOfBigInt_ofUInt512 (n : Fin (2 ^ 512)) :
    valueOfBigInt (bigIntOfUInt512 n) = .ok (.uint512 n) := by
  show (if h : n.val < 2 ^ 512 then (Except.ok (Value.uint512 ⟨n.val, h⟩) :
      Except ParsingError Value)
    else .error "BigInt value does not fit in 512 bits") = .ok (.uint512 n)
  rw [dif_pos n.isLt]

theorem valueOfProtobuf_protobufOfValue (v : Value) :
    valueOfProtobuf (protobufOfValue v) = .ok v := by
  cases v with
  | uint128 n => exact valueOfBigInt_ofUInt128 n
  | uint256 n => exact valueOfBigInt_ofUInt256 n
  | uint512 n => exact valueOfBigInt_ofUInt512 n
  | _ => rfl

/-- C2: for every `Transform` value `t` (every variant — `Identity`,
`Write`, `AddInt32`, `AddUInt64`, `AddUInt128`, `AddUInt256`,
`AddUInt512`, `AddKeys`, `Failure`) whose `AddKeys` payload satisfies the
`BTreeMap` invariant, converting `t` to its protobuf representation and
back yields `Ok t`; in particular the three big-integer widths, which
share the single `add_big_int` protobuf case, are recovered with their
original width. -/
theorem transform_protobuf_roundtrip (t : Transform) (hwf : TransformWF t) :
    transformOfProtobuf (protobufOfTransform t) = .ok t := by
  cases t with
  | identity => rfl
  | addInt32 i => rfl
  | addUInt64 n => rfl
  | addUInt128 n =>
    simp only [protobufOfTransform, transformOfProtobuf, valueOfBigInt_ofUInt128]
  | addUInt256 n =>
    simp only [protobufOfTransform, transformOfProtobuf, valueOfBigInt_ofUInt256]
  | addUInt512 n =>
    simp only [protobufOfTransform, transformOfProtobuf, valueOfBigInt_ofUInt512]
  | write v =>
    simp only [protobufOfTransform, transformOfProtobuf, valueOfProtobuf_protobufOfValue]
  | addKeys m =>
    have hs : namedKeysSorted m = true := hwf
    simp only [protobufOfTransform, transformOfProtobuf, insertAllNamed_of_sorted m hs]
  | failure e => cases e; rfl

/-- Witness for C2 at a transform with a two-entry `AddKeys` map, whose
sortedness invariant discharges the hypothesis. -/
theorem transform_protobuf_roundtrip_witness :
    namedKeysSorted [("alpha", Key.account [1]), ("beta", Key.hash [2])] = true ∧
    transformOfProtobuf (protobufOfTransform
        (.addKeys [("alpha", Key.account [1]), ("beta", Key.hash [2])])) =
      .ok (.addKeys [("alpha", Key.account [1]), ("beta", Key.hash [2])]) :=
  ⟨by decide, transform_protobuf_roundtrip
    (Transform.addKeys [("alpha", Key.account [1]), ("beta", Key.hash [2])])
    (by exact (by decide :
      namedKeysSorted [("alpha", Key.account [1]), ("beta", Key.hash [2])] = true))⟩

/-! ## Lemmas: commit effects -/

theorem TransformMap_tryFrom_forall2 (entries : List TransformEntry)
    (ts : List (Key × Transform)) (h : TransformMap_tryFrom entries = .ok ts) :
    List.Forall₂ (fun e p => convertTransformEntry e = .ok p) entries ts := by
  induction entries generalizing ts with
  | nil =>
    rw [TransformMap_tryFrom] at h
    cases h
    exact List.Forall₂.nil
  | cons e rest ih =>
    rw [TransformMap_tryFrom] at h
    cases hc : convertTransformEntry e with
    | error msg => rw [hc] at h; cases h
    | ok p =>
      rw [hc] at h
      cases hr : TransformMap_tryFrom rest with
      | error msg => rw [hr] at h; cases h
      | ok ps =>
        rw [hr] at h
        cases h
        exact List.Forall₂.cons hc (ih ps hr)

theorem applyEffects_append (xs ys : List (Key × Transform)) :
    ∀ st, applyEffects st (xs ++ ys) =
      match applyEffects st xs with
      | .error e => .error e
      | .ok st2 => applyEffects st2 ys := by
  induction xs with
  | nil => intro st; rfl
  | cons e xs ih =>
    intro st
    obtain ⟨k, t⟩ := e
    rw [List.cons_append, applyEffects, applyEffects]
    cases applyTransform t (st k) with
    | error err => cases err <;> rfl
    | ok v => exact ih _

/-- C1: the commit operation treats its effects as an ordered list — the
`TransformMap` conversion turns the submitted entries into exactly one
`(Key, Transform)` pair per entry, in the submitted order and with no
deduplication or per-key merging (`Forall₂`), and applying the effects
processes that list sequentially: for each pair in order, the current
value is read, the transform applied and the write staged, a prefix
first and the rest against the staged state. -/
theorem commit_effects_ordered_no_dedup (entries : List TransformEntry)
    (ts : List (Key × Transform)) (h : TransformMap_tryFrom entries = .ok ts) :
    List.Forall₂ (fun e p => convertTransformEntry e = .ok p) entries ts ∧
    ts.length = entries.length ∧
    (∀ (st : GlobalState) (xs ys : List (Key × Transform)),
      applyEffects st (xs ++ ys) =
        match applyEffects st xs with
        | .error e => .error e
        | .ok st2 => applyEffects st2 ys) := by
  have hf := TransformMap_tryFrom_forall2 entries ts h
  exact ⟨hf, hf.length_eq.symm, fun st xs ys => applyEffects_append xs ys st⟩

/-- Witness for C1 at a two-entry effect list repeating the same key:
both entries survive the conversion, in order. -/
theorem commit_effects_ordered_no_dedup_witness :
    TransformMap_tryFrom
        [⟨.ok (Key.account [1]), protobufOfTransform .identity⟩,
         ⟨.ok (Key.account [1]), protobufOfTransform .identity⟩] =
      .ok [(Key.account [1], .identity), (Key.account [1], .identity)] ∧
    List.Forall₂ (fun e p => convertTransformEntry e = .ok p)
      [⟨.ok (Key.account [1]), protobufOfTransform .identity⟩,
       ⟨.ok (Key.account [1]), protobufOfTransform .identity⟩]
      [(Key.account [1], .identity), (Key.account [1], .identity)] :=
  ⟨rfl, (commit_effects_ordered_no_dedup
    [⟨.ok (Key.account [1]), protobufOfTransform .identity⟩,
     ⟨.ok (Key.account [1]), protobufOfTransform .identity⟩]
    [(Key.account [1], .identity), (Key.account [1], .identity)] rfl).1⟩

/-! ## Lemmas: the execute deploy loop -/

theorem executeLoop_missing_parent (known : Blake2bHash → Bool)
    (run : ProtocolVersion → Blake2bHash → Nat → DeployItem → ExecutionResult)
    (pv : ProtocolVersion) (parent : Blake2bHash) (blockTime : Nat)
    (hunknown : known parent = false) :
    ∀ (l : List (Except MappingError DeployItem)) (acc : List ExecutionResult),
    (∃ d ∈ l, ∃ di, d = Except.ok di) →
    executeLoop known run pv parent blockTime l acc = .missingParent parent.bytes := by
  intro l
  induction l with
  | nil =>
    rintro acc ⟨d, hd, _⟩
    simp at hd
  | cons x rest ih =>
    rintro acc ⟨d, hd, di, hdi⟩
    cases x with
    | error msg =>
      rw [executeLoop]
      apply ih
      rcases List.mem_cons.mp hd with rfl | hd'
      · cases hdi
      · exact ⟨d, hd', di, hdi⟩
    | ok d0 =>
      rw [executeLoop]
      unfold deployModel
      rw [hunknown]
      rfl

/-- C3 (amended): for every execute request whose parent state digest is
unknown to the store and whose deploys list contains at least one deploy
that converts to a `DeployItem`, the execute operation returns
`MissingParent` carrying that digest (a response with no deploy results,
so no deploy's effects are produced).  When every deploy fails
conversion, the loop never consults the store and the response is
`Success` with per-deploy precondition failures instead. -/
theorem execute_missing_parent (known : Blake2bHash → Bool)
    (run : ProtocolVersion → Blake2bHash → Nat → DeployItem → ExecutionResult)
    (req : ExecuteRequest) (hunknown : known req.parentStateHash = false)
    (hdeploy : ∃ d ∈ req.deploys, ∃ di, d = Except.ok di) :
    execute known run req = .missingParent req.parentStateHash.bytes :=
  executeLoop_missing_parent known run (takeProtocolVersion req.protocolVersion)
    req.parentStateHash req.blockTime hunknown req.deploys [] hdeploy

/-- Witness for C3 (amended) at a concrete request with one malformed and
one well-formed deploy against a store that knows no roots. -/
theorem execute_missing_parent_witness :
    (fun _ : Blake2bHash => false) ⟨List.replicate 32 0⟩ = false ∧
    execute (fun _ => false) (fun _ _ _ _ => .executed [] 0)
        ⟨⟨List.replicate 32 0⟩, 0, none,
         [Except.error "no payment code", Except.ok ⟨[3], [], [], []⟩]⟩ =
      .missingParent (List.replicate 32 0) :=
  ⟨rfl, execute_missing_parent (fun _ => false) (fun _ _ _ _ => .executed [] 0)
    ⟨⟨List.replicate 32 0⟩, 0, none,
     [Except.error "no payment code", Except.ok ⟨[3], [], [], []⟩]⟩
    rfl ⟨Except.ok ⟨[3], [], [], []⟩, by simp, ⟨[3], [], [], []⟩, rfl⟩⟩

/-- Counterexample to C3 as stated: a request whose parent digest is
unknown and whose deploys list is nonempty, but whose only deploy fails
conversion to a `DeployItem` — the `Err(mapping_error)` arm
(`mod.rs` lines 230–232) pushes a precondition failure and the loop
completes, so the response is `Success`, not `MissingParent`. -/
theorem execute_missing_parent_counterexample :
    (fun _ : Blake2bHash => false) ⟨List.replicate 32 0⟩ = false ∧
    execute (fun _ => false) (fun _ _ _ _ => .executed [] 0)
        ⟨⟨List.replicate 32 0⟩, 0, none, [Except.error "no payment code"]⟩ =
      .success [.preconditionFailure "no payment code"] ∧
    execute (fun _ => false) (fun _ _ _ _ => .executed [] 0)
        ⟨⟨List.replicate 32 0⟩, 0, none, [Except.error "no payment code"]⟩ ≠
      .missingParent (List.replicate 32 0) := by
  refine ⟨rfl, rfl, ?_⟩
  intro h
  cases h

/-- C5: for every execute request whose deploys list is empty, the
execute operation returns `Success` with an empty results list, whatever
the store knows about the parent digest: the digest is only consulted in
the course of processing a deploy. -/
theorem execute_empty_deploys (known : Blake2bHash → Bool)
    (run : ProtocolVersion → Blake2bHash → Nat → DeployItem → ExecutionResult)
    (parent : Blake2bHash) (blockTime : Nat) (pv : Option ProtocolVersion) :
    execute known run ⟨parent, blockTime, pv, []⟩ = .success [] := rfl

/-! ## Lemmas: commit responses and protocol versions -/

theorem parseBlake2bHash_ok_bytes (bs : List Nat) (h : Blake2bHash)
    (hp : parseBlake2bHash bs = .ok h) : h.bytes = bs := by
  unfold parseBlake2bHash at hp
  by_cases hl : bs.length = 32
  · rw [if_pos hl] at hp
    cases hp
    rfl
  · rw [if_neg hl] at hp
    cases hp

/-- C4: every commit request produces exactly one of `Success`,
`MissingPrestate`, `KeyNotFound`, `TypeMismatch` or `FailedTransform`;
when the inputs parse, a `RootNotFound` commit result maps to
`MissingPrestate` carrying the submitted pre-state hash, and a
storage-level error maps to `FailedTransform` rather than failing the
request. -/
theorem commit_response_cases (store : Blake2bHash → Except String (Option GlobalState))
    (root : GlobalState → Blake2bHash) (bonds : GlobalState → List (List Nat × Nat))
    (req : CommitRequest) :
    ((∃ h b, commit store root bonds req = .success h b) ∨
     (∃ h, commit store root bonds req = .missingPrestate h) ∨
     (∃ k, commit store root bonds req = .keyNotFound k) ∨
     (∃ e f, commit store root bonds req = .typeMismatch e f) ∨
     (∃ m, commit store root bonds req = .failedTransform m)) ∧
    (∀ (pre : Blake2bHash) (ts : List (Key × Transform)),
      parseBlake2bHash req.prestateHash = .ok pre →
      TransformMap_tryFrom req.effects = .ok ts →
      (apply_effect store root bonds
          (commitEffectiveProtocolVersion req.protocolVersion) pre ts =
            .ok .rootNotFound →
        commit store root bonds req = .missingPrestate req.prestateHash) ∧
      (∀ e, apply_effect store root bonds
          (commitEffectiveProtocolVersion req.protocolVersion) pre ts = .error e →
        commit store root bonds req =
          .failedTransform ("State error when applying transforms: " ++ e))) := by
  constructor
  · rcases hc : commit store root bonds req with h | h | h | h | h
    · exact Or.inl ⟨_, _, rfl⟩
    · exact Or.inr (Or.inl ⟨_, rfl⟩)
    · exact Or.inr (Or.inr (Or.inl ⟨_, rfl⟩))
    · exact Or.inr (Or.inr (Or.inr (Or.inl ⟨_, _, rfl⟩)))
    · exact Or.inr (Or.inr (Or.inr (Or.inr ⟨_, rfl⟩)))
  · intro pre ts hpre hts
    constructor
    · intro happ
      unfold commit
      rw [hpre, hts]
      dsimp only
      rw [happ, parseBlake2bHash_ok_bytes _ _ hpre]
    · intro e happ
      unfold commit
      rw [hpre, hts]
      dsimp only
      rw [happ]

/-- Witness for C4 at a concrete request whose pre-state root is unknown
to the store. -/
theorem commit_response_cases_witness :
    parseBlake2bHash (List.replicate 32 0) = .ok ⟨List.replicate 32 0⟩ ∧
    commit (fun _ => .ok none) (fun _ => ⟨[]⟩) (fun _ => [])
        ⟨none, List.replicate 32 0, []⟩ =
      .missingPrestate (List.replicate 32 0) :=
  ⟨rfl, ((commit_response_cases (fun _ => .ok none) (fun _ => ⟨[]⟩) (fun _ => [])
    ⟨none, List.replicate 32 0, []⟩).2 ⟨List.replicate 32 0⟩ [] rfl rfl).1 rfl⟩

theorem pvLt_irrefl (p : ProtocolVersion) : pvLt p p = false := by
  simp [pvLt]

theorem commitEffectiveProtocolVersion_idem (o : Option ProtocolVersion) :
    commitEffectiveProtocolVersion (some (commitEffectiveProtocolVersion o)) =
      commitEffectiveProtocolVersion o := by
  unfold commitEffectiveProtocolVersion takeProtocolVersion
  by_cases h : pvLt ((o.getD ⟨0, 0, 0⟩)) DEFAULT_PROTOCOL_VERSION = true
  · rw [if_pos h]
    simp [pvLt_irrefl]
  · rw [if_neg h]
    simp only [Option.getD_some]
    rw [if_neg h]

/-- C6: an omitted protocol version reads as the protobuf default `0.0.0`
and the commit operation normalises it to `1.0.0`; every supplied version
strictly below `1.0.0` is replaced by `1.0.0`, every other version is
kept, and `commit` behaves as if the request carried the normalised
version — the normalisation happens before the effects are applied. -/
theorem commit_protocol_version_default :
    commitEffectiveProtocolVersion none = DEFAULT_PROTOCOL_VERSION ∧
    (∀ p, pvLt p DEFAULT_PROTOCOL_VERSION = true →
      commitEffectiveProtocolVersion (some p) = DEFAULT_PROTOCOL_VERSION) ∧
    (∀ p, pvLt p DEFAULT_PROTOCOL_VERSION = false →
      commitEffectiveProtocolVersion (some p) = p) ∧
    (∀ store root bonds req, commit store root bonds req =
      commit store root bonds
        ⟨some (commitEffectiveProtocolVersion req.protocolVersion),
         req.prestateHash, req.effects⟩) := by
  refine ⟨rfl, ?_, ?_, ?_⟩
  · intro p hp
    unfold commitEffectiveProtocolVersion takeProtocolVersion
    simp only [Option.getD_some]
    rw [if_pos hp]
  · intro p hp
    unfold commitEffectiveProtocolVersion takeProtocolVersion
    simp only [Option.getD_some]
    rw [if_neg (by simp [hp])]
  · intro store root bonds req
    unfold commit
    rw [commitEffectiveProtocolVersion_idem]

/-- Witness for C6 at the version `0.9.9`, which is below `1.0.0`. -/
theorem commit_protocol_version_default_witness :
    pvLt ⟨0, 9, 9⟩ DEFAULT_PROTOCOL_VERSION = true ∧
    commitEffectiveProtocolVersion (some ⟨0, 9, 9⟩) = DEFAULT_PROTOCOL_VERSION :=
  ⟨by decide, commit_protocol_version_default.2.1 ⟨0, 9, 9⟩ (by decide)⟩

/-- C7: a query returns `Success v` exactly when the state digest checks
out, the base key parses and the path walk reaches `v`; a checkout error,
an unknown root, an unparsable base key, a traversal error and a
`ValueNotFound` outcome each produce `Failure` with a message. -/
theorem query_response_characterisation (checkout : Blake2bHash → Except String Bool)
    (walk : Blake2bHash → Key → List String → TCQueryOutcome) (req : QueryRequest) :
    (∀ v, query checkout walk req = .success v ↔
      (checkout req.stateHash = .ok true ∧
       ∃ k, req.baseKey = .ok k ∧ walk req.stateHash k req.path = .success v)) ∧
    (∀ e, checkout req.stateHash = .error e →
      query checkout walk req = .failure ("Error during checkout out Trie: " ++ e)) ∧
    (checkout req.stateHash = .ok false →
      query checkout walk req = .failure "Root not found") ∧
    (∀ m, checkout req.stateHash = .ok true → req.baseKey = .error m →
      query checkout walk req = .failure m) ∧
    (∀ k m, checkout req.stateHash = .ok true → req.baseKey = .ok k →
      walk req.stateHash k req.path = .error m →
      query checkout walk req = .failure m) ∧
    (∀ k p, checkout req.stateHash = .ok true → req.baseKey = .ok k →
      walk req.stateHash k req.path = .valueNotFound p →
      query checkout walk req = .failure "Value not found") := by
  refine ⟨?_, ?_, ?_, ?_, ?_, ?_⟩
  · intro v
    unfold query
    cases hco : checkout req.stateHash with
    | error e => simp [hco]
    | ok b =>
      cases b with
      | false => simp [hco]
      | true =>
        cases hbk : req.baseKey with
        | error m => simp
        | ok k =>
          cases hw : walk req.stateHash k req.path with
          | error m => simp [hw]
          | valueNotFound p => simp [hw]
          | success v' => simp [hw]
  · intro e hco; unfold query; rw [hco]
  · intro hco; unfold query; rw [hco]
  · intro m hco hbk; unfold query; rw [hco, hbk]
  · intro k m hco hbk hw
    unfold query
    rw [hco, hbk]
    dsimp only
    rw [hw]
  · intro k p hco hbk hw
    unfold query
    rw [hco, hbk]
    dsimp only
    rw [hw]

/-- Witness for C7 at a concrete request whose root is unknown. -/
theorem query_response_characterisation_witness :
    query (fun _ => .ok false) (fun _ _ _ => .error "no walk")
        ⟨⟨List.replicate 32 0⟩, .ok (Key.account [1]), []⟩ =
      .failure "Root not found" :=
  (query_response_characterisation (fun _ => .ok false) (fun _ _ _ => .error "no walk")
    ⟨⟨List.replicate 32 0⟩, .ok (Key.account [1]), []⟩).2.2.1 rfl

/-- C8: the finalize-payment program first transfers the payment amount
from the caller's main purse to the PoS payment purse, reverting with
user code 99 when that transfer fails; then, exactly when its refund-flag
argument (argument 1) is nonzero, it creates a fresh purse, stores it
under the named key `"local_refund_purse"` and registers it via
`set_refund_purse` before calling `finalize_payment`, so that the refund
goes to that explicit refund purse rather than the account's main
purse. -/
theorem finalize_payment_behavior (env : FinalizeEnv) :
    (env.transferOk = false →
      finalizePaymentCall env =
        ([.transferFromPurseToPurse env.mainPurse env.paymentPurse env.paymentAmount],
         .reverted (.user 99))) ∧
    (env.transferOk = true → env.refundPurseFlag ≠ 0 →
      finalizePaymentCall env =
        ([.transferFromPurseToPurse env.mainPurse env.paymentPurse env.paymentAmount,
          .createPurse env.freshPurse,
          .putKey "local_refund_purse" (purseToKey env.freshPurse),
          .setRefundPurse env.freshPurse,
          .finalizePayment env.amountSpent env.account], .completed) ∧
      refundTarget (finalizePaymentCall env).1 env.mainPurse = env.freshPurse) ∧
    (env.transferOk = true → env.refundPurseFlag = 0 →
      finalizePaymentCall env =
        ([.transferFromPurseToPurse env.mainPurse env.paymentPurse env.paymentAmount,
          .finalizePayment env.amountSpent env.account], .completed) ∧
      refundTarget (finalizePaymentCall env).1 env.mainPurse = env.mainPurse) := by
  refine ⟨?_, ?_, ?_⟩
  · intro hfail
    unfold finalizePaymentCall submitPayment
    rw [hfail]
    rfl
  · intro hok hflag
    have hcall : finalizePaymentCall env =
        ([.transferFromPurseToPurse env.mainPurse env.paymentPurse env.paymentAmount,
          .createPurse env.freshPurse,
          .putKey "local_refund_purse" (purseToKey env.freshPurse),
          .setRefundPurse env.freshPurse,
          .finalizePayment env.amountSpent env.account], .completed) := by
      unfold finalizePaymentCall submitPayment
      rw [hok]
      dsimp only
      rw [if_pos hflag]
      rfl
    refine ⟨hcall, ?_⟩
    rw [hcall]
    rfl
  · intro hok hflag
    have hcall : finalizePaymentCall env =
        ([.transferFromPurseToPurse env.mainPurse env.paymentPurse env.paymentAmount,
          .finalizePayment env.amountSpent env.account], .completed) := by
      unfold finalizePaymentCall submitPayment
      rw [hok]
      dsimp only
      rw [if_neg (show ¬(env.refundPurseFlag ≠ 0) by simp [hflag])]
      rfl
    refine ⟨hcall, ?_⟩
    rw [hcall]
    rfl

/-- Witness for C8 at a concrete environment with a succeeding transfer
and a nonzero refund flag. -/
theorem finalize_payment_behavior_witness :
    finalizePaymentCall ⟨100, 1, 40, [9], ⟨[1]⟩, ⟨[2]⟩, ⟨[3]⟩, true⟩ =
      ([.transferFromPurseToPurse ⟨[1]⟩ ⟨[2]⟩ 100,
        .createPurse ⟨[3]⟩,
        .putKey "local_refund_purse" (purseToKey ⟨[3]⟩),
        .setRefundPurse ⟨[3]⟩,
        .finalizePayment 40 [9]], .completed) ∧
    refundTarget (finalizePaymentCall ⟨100, 1, 40, [9], ⟨[1]⟩, ⟨[2]⟩, ⟨[3]⟩, true⟩).1
        ⟨[1]⟩ = ⟨[3]⟩ :=
  (finalize_payment_behavior ⟨100, 1, 40, [9], ⟨[1]⟩, ⟨[2]⟩, ⟨[3]⟩, true⟩).2.1
    rfl (by decide)

end CasperLabs
